import Mathlib

/-!
Verification of the `dbuf` double-buffer library.

The Rust sources are shallowly embedded: heap pointers into the hazard
strategy's append-only linked list of reader slots become indices into a
`List`, `u32` arithmetic becomes `Nat` arithmetic reduced modulo `2 ^ 32`
exactly where the machine wraps, and fallible or possibly-diverging code
returns `Option`.
-/

/-- The modulus of the `u32` arithmetic used by the hazard strategy. -/
def U32 : Nat := 2 ^ 32

/-- One node of the hazard strategy's append-only linked list
(`ActiveReader` in `src/dbuf/src/strategy/hazard.rs`).  Raw pointers are
modelled as indices into `HazardStrategy.slots`; `none` is the null
pointer.  Nodes are only ever appended, so indices are stable. -/
structure ActiveReader where
  /-- the next link in the full list (immutable after insertion) -/
  next : Option Nat
  /-- the next link in the captured sub-sequence (owned by the writer) -/
  nextCaptured : Option Nat
  /-- `0` when the slot is free, otherwise the generation of the active read -/
  generation : Nat
deriving Repr, DecidableEq

/-- The hazard strategy state (`HazardStrategy` in
`src/dbuf/src/strategy/hazard.rs`): the head pointer `ptr` of the
append-only list, the slot store, and the `u32` generation counter. -/
structure HazardStrategy where
  /-- the head of the append-only linked list (`AtomicPtr<ActiveReader>`) -/
  ptr : Option Nat
  /-- the allocation store backing the list; position `i` models one heap node -/
  slots : List ActiveReader
  /-- the current generation (`AtomicU32`) -/
  generation : Nat
deriving Repr, DecidableEq

/-- `HazardStrategy::with_wait_strategy`: null head, generation `1`. -/
def HazardStrategy.init : HazardStrategy :=
  { ptr := none, slots := [], generation := 1 }

/-- the capture token for the hazard strategy (`Capture` in `hazard.rs`) -/
structure Capture where
  /-- the captured generation -/
  generation : Nat
  /-- the head of the captured sub-sequence -/
  start : Option Nat
deriving Repr, DecidableEq

/-- the reader tag for the hazard strategy (`ReaderTag` in `hazard.rs`):
caches the node the reader last used, `none` models the null cache -/
structure HazardReaderTag where
  /-- the node which the reader last used as active reader -/
  node : Option Nat
deriving Repr, DecidableEq

/-- the validation error of the hazard strategy is
`core::convert::Infallible`, an uninhabited type -/
def Infallible : Type := Empty

/-- read slot `i`'s fields -/
def HazardStrategy.slotAt (s : HazardStrategy) (i : Nat) : Option ActiveReader :=
  s.slots[i]?

/-- store `g` into slot `i`'s atomic `generation` field -/
def HazardStrategy.setGeneration (s : HazardStrategy) (i : Nat) (g : Nat) :
    HazardStrategy :=
  match s.slots[i]? with
  | some r => { s with slots := s.slots.set i { r with generation := g } }
  | none => s

/-- store `v` into slot `i`'s writer-owned `next_captured` field -/
def HazardStrategy.setNextCaptured (s : HazardStrategy) (i : Nat) (v : Option Nat) :
    HazardStrategy :=
  match s.slots[i]? with
  | some r => { s with slots := s.slots.set i { r with nextCaptured := v } }
  | none => s

/-- `HazardStrategy::validate_swap`: `fetch_add(2)` on the generation
counter (wrapping `u32`), returning the prior value as the validation
token.  The error type is `Infallible`, so the result is always `ok`. -/
def HazardStrategy.validate_swap (s : HazardStrategy) :
    Except Infallible (HazardStrategy × Nat) :=
  .ok ({ s with generation := (s.generation + 2) % U32 }, s.generation)

/-- The walking loop of `HazardStrategy::capture_readers`: follows `next`
from `ptr`, stitching every node whose generation equals `g` into the
`next_captured` chain.  `start` is `sub_sequence_start` (null until the
first match), `prev` is `sub_sequence_prev` (initialized to the list
head).  Returns the updated store and the final `prev`.  The fuel only
guards against cyclic stores, which reachable states never produce. -/
def captureLoop (g : Nat) :
    Nat → Option Nat → Option Nat → Nat → HazardStrategy → HazardStrategy × Nat
  | 0, _, _, prev, s => (s, prev)
  | fuel + 1, p, start, prev, s =>
    match p with
    | none => (s, prev)
    | some i =>
      match s.slots[i]? with
      | none => (s, prev)
      | some r =>
        if r.generation = g then
          captureLoop g fuel r.next (some i) i
            (if start.isNone then s else s.setNextCaptured prev (some i))
        else
          captureLoop g fuel r.next start prev s

/-- `HazardStrategy::capture_readers`: walk the full list once, chain the
nodes whose generation equals the validation token `g` through
`next_captured`, null the final `next_captured`, and return
`Capture { generation: g, start: head }` — note that the source stores the
*full-list head*, not the first matching node, in `start`. -/
def HazardStrategy.capture_readers (s : HazardStrategy) (g : Nat) :
    HazardStrategy × Capture :=
  match s.ptr with
  | none => (s, { generation := 0, start := none })
  | some head =>
    let res := captureLoop g (s.slots.length + 1) (some head) none head s
    (res.1.setNextCaptured res.2 none, { generation := g, start := some head })

/-- The walking loop of `HazardStrategy::have_readers_exited`: follows
`next_captured` from `p`; answers `(false, some i)` at the first node `i`
still holding generation `g`, `(true, none)` at the end of the chain.
`none` models non-termination on a cyclic store (never reachable). -/
def hreLoop (s : HazardStrategy) (g : Nat) :
    Nat → Option Nat → Option (Bool × Option Nat)
  | 0, _ => none
  | fuel + 1, p =>
    match p with
    | none => some (true, none)
    | some i =>
      match s.slots[i]? with
      | none => none
      | some r =>
        if r.generation = g then some (false, some i)
        else hreLoop s g fuel r.nextCaptured

/-- `HazardStrategy::have_readers_exited`: walk the captured sub-sequence
from `capture.start`; if a node still holds the captured generation,
advance `capture.start` to it and answer `false`; if the chain is
exhausted answer `true` (leaving the capture unchanged). -/
def HazardStrategy.have_readers_exited (s : HazardStrategy) (c : Capture) :
    Option (Bool × Capture) :=
  match hreLoop s c.generation (s.slots.length + 1) c.start with
  | none => none
  | some (true, _) => some (true, c)
  | some (false, p) => some (false, { c with start := p })

/-- `HazardStrategy::load_read_guard_slow`: allocate a fresh node with its
generation pre-set to `g` and push it onto the head of the list.  Returns
the new store and the new node's index. -/
def HazardStrategy.load_read_guard_slow (s : HazardStrategy) (g : Nat) :
    HazardStrategy × Nat :=
  ({ s with
      slots := s.slots ++ [{ next := s.ptr, nextCaptured := none, generation := g }],
      ptr := some s.slots.length },
    s.slots.length)

/-- the compare-and-swap `0 → g` on slot `i`'s generation: succeeds (in
the non-spurious execution) exactly when the slot is free -/
def HazardStrategy.tryClaim (s : HazardStrategy) (i : Nat) (g : Nat) :
    Option HazardStrategy :=
  match s.slots[i]? with
  | some r => if r.generation = 0 then some (s.setGeneration i g) else none
  | none => none

/-- The walking loop of `HazardStrategy::load_read_guard`: follow `next`
from `p` claiming the first free slot; `none` when the walk ends without
a claim (the caller then allocates). -/
def lrgLoop (g : Nat) :
    Nat → Option Nat → HazardStrategy → Option (HazardStrategy × Nat)
  | 0, _, _ => none
  | fuel + 1, p, s =>
    match p with
    | none => none
    | some i =>
      match s.tryClaim i g with
      | some s' => some (s', i)
      | none =>
        match s.slots[i]? with
        | none => none
        | some r => lrgLoop g fuel r.next s

/-- `HazardStrategy::load_read_guard`: walk the whole list for a free
slot, falling back to allocation when none is found. -/
def HazardStrategy.load_read_guard (s : HazardStrategy) (g : Nat) :
    HazardStrategy × Nat :=
  match lrgLoop g (s.slots.length + 1) s.ptr s with
  | some res => res
  | none => s.load_read_guard_slow g

/-- `HazardStrategy::begin_read_guard`: read the current generation, try
the cached node's CAS first, then the list walk, then allocation; the
successful node is cached in the reader tag. -/
def HazardStrategy.begin_read_guard (s : HazardStrategy) (tag : HazardReaderTag) :
    HazardStrategy × HazardReaderTag :=
  let g := s.generation
  match tag.node with
  | some i =>
    match s.tryClaim i g with
    | some s' => (s', tag)
    | none =>
      let res := s.load_read_guard_slow g
      (res.1, { node := some res.2 })
  | none =>
    let res := s.load_read_guard g
    (res.1, { node := some res.2 })

/-- `HazardStrategy::end_read_guard`: store `0` into the generation of
the node cached in the reader's tag (the node of the guard being ended).
The node index is passed directly; in the source the pointer is always
valid when this is called. -/
def HazardStrategy.end_read_guard (s : HazardStrategy) (i : Nat) : HazardStrategy :=
  s.setGeneration i 0

/-- Drop glue of `HazardStrategy` (`impl<W> Drop for HazardStrategy<W>`):
walk the full list from the head along `next`, freeing every node.  The
result is the sequence of slot indices freed, in order. -/
def dropFreesLoop (s : HazardStrategy) : Nat → Option Nat → List Nat
  | 0, _ => []
  | _ + 1, none => []
  | fuel + 1, some i =>
    match s.slots[i]? with
    | none => []
    | some r => i :: dropFreesLoop s fuel r.next

/-- the indices freed by `HazardStrategy`'s `Drop`, in order -/
def HazardStrategy.dropFrees (s : HazardStrategy) : List Nat :=
  dropFreesLoop s (s.slots.length + 1) s.ptr

/-- index into the `[T; 2]` of a `SizedRawDoubleBuffer`
(`usize::from(which)`: `false ↦ 0`, `true ↦ 1`) -/
def bufGet {T : Type} (b : T × T) (i : Bool) : T :=
  if i then b.2 else b.1

/-- write through the pointer at index `i` of a `SizedRawDoubleBuffer` -/
def bufSet {T : Type} (b : T × T) (i : Bool) (v : T) : T × T :=
  if i then (b.1, v) else (v, b.2)

/-- The `usize` modulus: `LocalStrategy`'s reader count is a `usize`. -/
def USIZE : Nat := 2 ^ 64

/-- The shared state of a double buffer run with the single-threaded
`LocalStrategy` (`src/dbuf/src/strategy/local.rs`): the strategy is just
the `active_readers` count, the flag is `raw::Flag` (initially `false`),
and the buffers are a `SizedRawDoubleBuffer<T>`.  Given flag `w`,
`SizedRawDoubleBuffer::get` yields writer-side `buffers[w]` and
reader-side `buffers[!w]`. -/
structure LocalShared (T : Type) where
  /-- `LocalStrategy.active_readers`: the number of active read guards -/
  active_readers : Nat
  /-- the `Flag` for which buffer is the writer-side -/
  which : Bool
  /-- the two buffers -/
  buffers : T × T
deriving Repr, DecidableEq

/-- the validation error of `LocalStrategy` (a unit struct in the source) -/
structure LocalValidationError where
deriving Repr, DecidableEq

/-- `LocalStrategy::validate_swap`: fails iff any read guard is active. -/
def LocalShared.validate_swap {T : Type} (s : LocalShared T) :
    Except LocalValidationError Unit :=
  if s.active_readers = 0 then .ok () else .error {}

/-- `Writer::try_swap_buffers` over `LocalStrategy`: `validate_swap`,
propagating its error unchanged (`?`), then flip the flag, then
`capture_readers` (a unit value) and `finish_swap` — for this strategy
`have_readers_exited` is unconditionally `true`, so the drain ends on its
first probe without calling `pause`. -/
def LocalShared.try_swap_buffers {T : Type} (s : LocalShared T) :
    Except LocalValidationError (LocalShared T) :=
  match s.validate_swap with
  | .error e => .error e
  | .ok _ => .ok { s with which := !s.which }

/-- `LocalStrategy::begin_read_guard`: `checked_add(1)` on the reader
count; `none` models the `expect` panic on `usize` overflow. -/
def LocalShared.begin_read_guard {T : Type} (s : LocalShared T) :
    Option (LocalShared T) :=
  if s.active_readers + 1 < USIZE then
    some { s with active_readers := s.active_readers + 1 }
  else none

/-- `LocalStrategy::end_read_guard`: decrement the reader count (the
source never calls this without a matching begin). -/
def LocalShared.end_read_guard {T : Type} (s : LocalShared T) : LocalShared T :=
  { s with active_readers := s.active_readers - 1 }

/-- the single mutation used through `Writer::split_mut` in the tests:
`*writer.split_mut().writer = v`, the writer-side being `buffers[which]`
via the unsynchronized flag load -/
def LocalShared.write {T : Type} (s : LocalShared T) (v : T) : LocalShared T :=
  { s with buffers := bufSet s.buffers s.which v }

/-- `*reader.get()` as in `test_local`: `begin_read_guard`, load the
flag, read the reader-side buffer `buffers[!which]`, and drop the guard
at the end of the statement (`end_read_guard`). -/
def LocalShared.get_drop {T : Type} (s : LocalShared T) :
    Option (LocalShared T × T) :=
  (s.begin_read_guard).map fun s' =>
    (s'.end_read_guard, bufGet s'.buffers (!s'.which))

/-- The operation log (`OpLog` in `src/dbuf/src/op_log.rs`). -/
structure OpLog (O : Type) where
  /-- the list of in progress operations -/
  ops : List O
  /-- the number of operations already applied to the previous buffer -/
  applied : Nat
deriving Repr, DecidableEq

/-- `OpLog::new` -/
def OpLog.new {O : Type} : OpLog O := { ops := [], applied := 0 }

/-- `OpLog::push` -/
def OpLog.push {O : Type} (log : OpLog O) (op : O) : OpLog O :=
  { log with ops := log.ops ++ [op] }

/-- `OpLog::unapplied`: `&self.ops[self.applied..]` (the source indexing
panics when `applied > len`; on all non-panicking inputs it equals
`List.drop`) -/
def OpLog.unapplied {O : Type} (log : OpLog O) : List O :=
  log.ops.drop log.applied

/-- the first loop of `OpLog::apply`: `apply_last` each drained
operation, in order, threading the buffer -/
def applyLastAll {O B : Type} (applyLast : O → B → B) : List O → B → B
  | [], b => b
  | op :: ops, b => applyLastAll applyLast ops (applyLast op b)

/-- the second loop of `OpLog::apply`: `apply` each remaining operation
in order; `Operation::apply` takes `&mut self`, so each operation is
threaded through as well -/
def applyAll {O B : Type} (applyOp : O → B → O × B) : List O → B → List O × B
  | [], b => ([], b)
  | op :: ops, b =>
    let r := applyOp op b
    let rs := applyAll applyOp ops r.2
    (r.1 :: rs.1, rs.2)

/-- `OpLog::apply`: drain the first `applied` operations through
`apply_last`, set `applied := current length` (the length after the
drain), then run `apply` over the remaining operations.  `none` models
the `drain` panic when `applied > ops.len()`. -/
def OpLog.apply {O B : Type} (applyOp : O → B → O × B) (applyLast : O → B → B)
    (log : OpLog O) (buf : B) : Option (OpLog O × B) :=
  if log.applied ≤ log.ops.length then
    let b1 := applyLastAll applyLast (log.ops.take log.applied) buf
    let rest := log.ops.drop log.applied
    let res := applyAll applyOp rest b1
    some ({ ops := res.1, applied := rest.length }, res.2)
  else none

/-- `SpinWait::wait`'s counter update:
`*counter = count.wrapping_add(1).max(10)` — note `max`, as written in
`src/dbuf/src/wait.rs`, not a saturating `min`. -/
def SpinWait.step (counter : Nat) : Nat :=
  Nat.max ((counter + 1) % U32) 10

/-- `SpinWait::wait`: returns the updated counter, the shift amount
`count` of the spin bound `1 << count`, and the returned flag
`count == 10`.  `notify` on `SpinWait` is a no-op (an empty body). -/
def SpinWait.wait (counter : Nat) : Nat × Nat × Bool :=
  (SpinWait.step counter, counter, counter == 10)

/-- The shared state of a double buffer run with the hazard strategy:
strategy, `AtomicFlag` (initially `false`), and a `SizedRawDoubleBuffer`. -/
structure HazardShared (T : Type) where
  /-- the hazard strategy -/
  strategy : HazardStrategy
  /-- the `AtomicFlag` for which buffer is the writer-side -/
  which : Bool
  /-- the two buffers -/
  buffers : T × T
deriving Repr, DecidableEq

/-- `Writer::try_start_buffer_swap` over the hazard strategy:
`validate_swap` (infallible — `fetch_add(2)` returning the prior
generation), flip the flag, then `capture_readers` with the token. -/
def HazardShared.try_start_buffer_swap {T : Type} (s : HazardShared T) :
    HazardShared T × Capture :=
  match s.strategy.validate_swap with
  | .error e => e.elim
  | .ok vr =>
    let cr := vr.1.capture_readers vr.2
    ({ s with strategy := cr.1, which := !s.which }, cr.2)

/-- The delayed writer (`DelayedWriter` in `src/dbuf/src/delayed.rs`):
the underlying writer plus a potentially in-progress swap. -/
structure DelayedWriter (T : Type) where
  /-- the underlying writer's shared state -/
  writer : HazardShared T
  /-- a potentially in-progress swap (its capture token) -/
  swap : Option Capture
deriving Repr, DecidableEq

/-- `DelayedWriter::new` -/
def DelayedWriter.new {T : Type} (w : HazardShared T) : DelayedWriter T :=
  { writer := w, swap := none }

/-- `DelayedWriter::try_start_buffer_swap`: if a swap is already
outstanding, return `Ok(())` at once — no `validate_swap`, no flag flip;
otherwise start a swap and store its capture. -/
def DelayedWriter.try_start_buffer_swap {T : Type} (d : DelayedWriter T) :
    DelayedWriter T :=
  if d.swap.isSome then d
  else
    let res := d.writer.try_start_buffer_swap
    { writer := res.1, swap := some res.2 }

/-- `DelayedWriter::is_swap_finished`: probe `have_readers_exited`; when
it answers true, clear the stored swap; otherwise keep the (advanced)
capture. -/
def DelayedWriter.is_swap_finished {T : Type} (d : DelayedWriter T) :
    Option (Bool × DelayedWriter T) :=
  match d.swap with
  | none => some (true, d)
  | some c =>
    match d.writer.strategy.have_readers_exited c with
    | none => none
    | some (true, _) => some (true, { d with swap := none })
    | some (false, c') => some (false, { d with swap := some c' })

/-- `DelayedWriter::finish_swap`: drain the outstanding swap.
`Writer::finish_swap` probes `have_readers_exited` and pauses in a loop;
no other thread exists in this model, so the state of the reader slots
cannot change between probes and the loop terminates exactly when the
first probe answers true (`none` models spinning forever). -/
def DelayedWriter.finish_swap {T : Type} (d : DelayedWriter T) :
    Option (DelayedWriter T) :=
  match d.swap with
  | none => some d
  | some c =>
    match d.writer.strategy.have_readers_exited c with
    | none => none
    | some (true, _) => some { d with swap := none }
    | some (false, _) => none

/-- `DelayedWriter::try_writer_mut`: run `is_swap_finished`; yield the
mutable writer only when it answered true.  The returned shared state is
the post-probe state (`is_swap_finished` takes `&mut self`). -/
def DelayedWriter.try_writer_mut {T : Type} (d : DelayedWriter T) :
    Option (Option (HazardShared T) × DelayedWriter T) :=
  match d.is_swap_finished with
  | none => none
  | some (true, d') => some (some d'.writer, d')
  | some (false, d') => some (none, d')

/-- Drop glue of `DelayedWriter`: `delayed.rs` declares no `Drop` impl,
and neither `Swap`, the hazard `Capture`, nor `Writer` has one, so
dropping a delayed writer runs no strategy operation — the outstanding
capture is discarded and the shared state is left exactly as it was. -/
def DelayedWriter.drop {T : Type} (d : DelayedWriter T) : HazardShared T :=
  d.writer

/-- The op-writer (`OpWriter` in `src/dbuf/src/op.rs`): a delayed writer
plus an operation log. -/
structure OpWriter (T O : Type) where
  /-- the underlying delayed writer -/
  writer : DelayedWriter T
  /-- the operation log -/
  op_log : OpLog O
deriving Repr, DecidableEq

/-- `OpWriter::apply`: push the operation onto the log — no buffer work. -/
def OpWriter.apply {T O : Type} (w : OpWriter T O) (op : O) : OpWriter T O :=
  { w with op_log := w.op_log.push op }

/-- `OpWriter::unapplied` -/
def OpWriter.unapplied {T O : Type} (w : OpWriter T O) : List O :=
  w.op_log.unapplied

/-- `OpWriter::swap_buffers`: finish any prior swap, run
`OpLog::apply` on the writer-side buffer obtained through `split_mut`,
then start a fresh buffer swap. -/
def OpWriter.swap_buffers {T O : Type} (applyOp : O → T → O × T)
    (applyLast : O → T → T) (w : OpWriter T O) : Option (OpWriter T O) :=
  (w.writer.finish_swap).bind fun d =>
    let buf := bufGet d.writer.buffers d.writer.which
    (OpLog.apply applyOp applyLast w.op_log buf).bind fun r =>
      let d' : DelayedWriter T :=
        { d with writer :=
            { d.writer with buffers := bufSet d.writer.buffers d.writer.which r.2 } }
      some { writer := d'.try_start_buffer_swap, op_log := r.1 }

/-- `OpWriter::publish`: swap buffers only when some operation is still
unapplied; otherwise do nothing. -/
def OpWriter.publish {T O : Type} (applyOp : O → T → O × T)
    (applyLast : O → T → T) (w : OpWriter T O) : Option (OpWriter T O) :=
  if w.unapplied.isEmpty then some w
  else OpWriter.swap_buffers applyOp applyLast w

/-- the list of slot `generation` fields, in allocation order -/
def gens (s : HazardStrategy) : List Nat := s.slots.map (·.generation)

/-- the list of slot `next` fields, in allocation order -/
def nexts (s : HazardStrategy) : List (Option Nat) := s.slots.map (·.next)

theorem list_set_self {α : Type} {l : List α} {i : Nat} {a : α}
    (h : l[i]? = some a) : l.set i a = l := by
  apply List.ext_getElem?
  intro j
  rw [List.getElem?_set]
  by_cases hij : i = j
  · subst hij
    have hlen : i < l.length := (List.getElem?_eq_some.mp h).1
    simp [hlen, h.symm]
  · simp [hij]

theorem setGeneration_gens_of_some {s : HazardStrategy} {i : Nat} {g : Nat}
    {r : ActiveReader} (h : s.slots[i]? = some r) :
    gens (s.setGeneration i g) = (gens s).set i g := by
  unfold HazardStrategy.setGeneration
  rw [h]
  simp [gens, List.map_set]

theorem setGeneration_of_none {s : HazardStrategy} {i : Nat} {g : Nat}
    (h : s.slots[i]? = none) : s.setGeneration i g = s := by
  unfold HazardStrategy.setGeneration
  rw [h]

theorem setGeneration_nexts (s : HazardStrategy) (i g : Nat) :
    nexts (s.setGeneration i g) = nexts s := by
  unfold HazardStrategy.setGeneration
  cases h : s.slots[i]? with
  | none => rfl
  | some r =>
    show nexts _ = _
    unfold nexts
    rw [List.map_set]
    exact list_set_self (by rw [List.getElem?_map, h]; rfl)

theorem setGeneration_ptr (s : HazardStrategy) (i g : Nat) :
    (s.setGeneration i g).ptr = s.ptr := by
  unfold HazardStrategy.setGeneration
  cases s.slots[i]? <;> rfl

theorem setGeneration_counter (s : HazardStrategy) (i g : Nat) :
    (s.setGeneration i g).generation = s.generation := by
  unfold HazardStrategy.setGeneration
  cases s.slots[i]? <;> rfl

theorem setGeneration_length (s : HazardStrategy) (i g : Nat) :
    (s.setGeneration i g).slots.length = s.slots.length := by
  unfold HazardStrategy.setGeneration
  cases s.slots[i]? with
  | none => rfl
  | some r => simp

theorem setNextCaptured_gens (s : HazardStrategy) (i : Nat) (v : Option Nat) :
    gens (s.setNextCaptured i v) = gens s := by
  unfold HazardStrategy.setNextCaptured
  cases h : s.slots[i]? with
  | none => rfl
  | some r =>
    show gens _ = _
    unfold gens
    rw [List.map_set]
    exact list_set_self (by rw [List.getElem?_map, h]; rfl)

theorem setNextCaptured_nexts (s : HazardStrategy) (i : Nat) (v : Option Nat) :
    nexts (s.setNextCaptured i v) = nexts s := by
  unfold HazardStrategy.setNextCaptured
  cases h : s.slots[i]? with
  | none => rfl
  | some r =>
    show nexts _ = _
    unfold nexts
    rw [List.map_set]
    exact list_set_self (by rw [List.getElem?_map, h]; rfl)

theorem setNextCaptured_ptr (s : HazardStrategy) (i : Nat) (v : Option Nat) :
    (s.setNextCaptured i v).ptr = s.ptr := by
  unfold HazardStrategy.setNextCaptured
  cases s.slots[i]? <;> rfl

theorem setNextCaptured_counter (s : HazardStrategy) (i : Nat) (v : Option Nat) :
    (s.setNextCaptured i v).generation = s.generation := by
  unfold HazardStrategy.setNextCaptured
  cases s.slots[i]? <;> rfl

theorem setNextCaptured_length (s : HazardStrategy) (i : Nat) (v : Option Nat) :
    (s.setNextCaptured i v).slots.length = s.slots.length := by
  unfold HazardStrategy.setNextCaptured
  cases s.slots[i]? with
  | none => rfl
  | some r => simp

/-- `capture_readers` only rewires `next_captured` links: the generation
fields, the `next` links, the head pointer, the generation counter and
the number of slots are all untouched. -/
theorem captureLoop_preserves (g : Nat) :
    ∀ (fuel : Nat) (p start : Option Nat) (prev : Nat) (s : HazardStrategy),
    gens (captureLoop g fuel p start prev s).1 = gens s ∧
    nexts (captureLoop g fuel p start prev s).1 = nexts s ∧
    (captureLoop g fuel p start prev s).1.ptr = s.ptr ∧
    (captureLoop g fuel p start prev s).1.generation = s.generation ∧
    (captureLoop g fuel p start prev s).1.slots.length = s.slots.length := by
  intro fuel
  induction fuel with
  | zero => intro p start prev s; exact ⟨rfl, rfl, rfl, rfl, rfl⟩
  | succ n ih =>
    intro p start prev s
    cases p with
    | none => exact ⟨rfl, rfl, rfl, rfl, rfl⟩
    | some i =>
      cases h : s.slots[i]? with
      | none => simp [captureLoop, h]
      | some r =>
        simp only [captureLoop, h]
        by_cases hg : r.generation = g
        · rw [if_pos hg]
          by_cases hs : start.isNone
          · rw [if_pos hs]
            exact ih r.next (some i) i s
          · rw [if_neg hs]
            obtain ⟨h1, h2, h3, h4, h5⟩ :=
              ih r.next (some i) i (s.setNextCaptured prev (some i))
            exact ⟨by rw [h1, setNextCaptured_gens],
                   by rw [h2, setNextCaptured_nexts],
                   by rw [h3, setNextCaptured_ptr],
                   by rw [h4, setNextCaptured_counter],
                   by rw [h5, setNextCaptured_length]⟩
        · rw [if_neg hg]
          exact ih r.next start prev s

theorem capture_readers_preserves (s : HazardStrategy) (g : Nat) :
    gens (s.capture_readers g).1 = gens s ∧
    nexts (s.capture_readers g).1 = nexts s ∧
    (s.capture_readers g).1.ptr = s.ptr ∧
    (s.capture_readers g).1.generation = s.generation ∧
    (s.capture_readers g).1.slots.length = s.slots.length := by
  cases hptr : s.ptr with
  | none =>
    simp [HazardStrategy.capture_readers, hptr]
  | some head =>
    obtain ⟨h1, h2, h3, h4, h5⟩ :=
      captureLoop_preserves g (s.slots.length + 1) (some head) none head s
    simp only [HazardStrategy.capture_readers, hptr]
    refine ⟨?_, ?_, ?_, ?_, ?_⟩
    · rw [setNextCaptured_gens, h1]
    · rw [setNextCaptured_nexts, h2]
    · rw [setNextCaptured_ptr, h3]; exact hptr
    · rw [setNextCaptured_counter, h4]
    · rw [setNextCaptured_length, h5]

theorem tryClaim_eq {s : HazardStrategy} {i g : Nat} {s' : HazardStrategy}
    (h : s.tryClaim i g = some s') :
    s' = s.setGeneration i g ∧ i < s.slots.length := by
  cases hs : s.slots[i]? with
  | none => simp [HazardStrategy.tryClaim, hs] at h
  | some r =>
    simp only [HazardStrategy.tryClaim, hs] at h
    by_cases hg : r.generation = 0
    · rw [if_pos hg] at h
      exact ⟨(Option.some.inj h).symm, (List.getElem?_eq_some.mp hs).1⟩
    · rw [if_neg hg] at h
      exact absurd h (by simp)

theorem lrgLoop_eq {g : Nat} :
    ∀ {fuel : Nat} {p : Option Nat} {s s' : HazardStrategy} {j : Nat},
    lrgLoop g fuel p s = some (s', j) →
    s' = s.setGeneration j g ∧ j < s.slots.length := by
  intro fuel
  induction fuel with
  | zero => intro p s s' j h; exact absurd h (by simp [lrgLoop])
  | succ n ih =>
    intro p s s' j h
    cases p with
    | none => exact absurd h (by simp [lrgLoop])
    | some i =>
      cases hc : s.tryClaim i g with
      | some s₁ =>
        simp only [lrgLoop, hc, Option.some.injEq, Prod.mk.injEq] at h
        obtain ⟨he, hj⟩ := h
        obtain ⟨h1, h2⟩ := tryClaim_eq hc
        subst hj
        exact ⟨by rw [← he, h1], h2⟩
      | none =>
        cases hs : s.slots[i]? with
        | none => simp [lrgLoop, hc, hs] at h
        | some r =>
          simp only [lrgLoop, hc, hs] at h
          exact ih h

/-- `begin_read_guard` either claims an existing slot (writing the
current generation into it) or pushes a freshly allocated slot. -/
theorem begin_read_guard_cases (s : HazardStrategy) (tag : HazardReaderTag) :
    (∃ i, i < s.slots.length ∧
        (s.begin_read_guard tag).1 = s.setGeneration i s.generation) ∨
    (s.begin_read_guard tag).1 = (s.load_read_guard_slow s.generation).1 := by
  unfold HazardStrategy.begin_read_guard
  cases tag.node with
  | some i =>
    cases hc : s.tryClaim i s.generation with
    | some s₁ =>
      obtain ⟨h1, h2⟩ := tryClaim_eq hc
      exact Or.inl ⟨i, h2, by simp only [hc]; exact h1⟩
    | none => exact Or.inr (by simp only [hc])
  | none =>
    unfold HazardStrategy.load_read_guard
    cases hl : lrgLoop s.generation (s.slots.length + 1) s.ptr s with
    | some res =>
      obtain ⟨h1, h2⟩ := lrgLoop_eq (p := s.ptr) (by rw [hl])
      exact Or.inl ⟨res.2, h2, by simp only [hl]; exact h1⟩
    | none => exact Or.inr (by simp only [hl])

theorem slow_gens (s : HazardStrategy) (g : Nat) :
    gens (s.load_read_guard_slow g).1 = gens s ++ [g] := by
  simp [HazardStrategy.load_read_guard_slow, gens]

theorem slow_nexts (s : HazardStrategy) (g : Nat) :
    nexts (s.load_read_guard_slow g).1 = nexts s ++ [s.ptr] := by
  simp [HazardStrategy.load_read_guard_slow, nexts]

theorem slow_ptr (s : HazardStrategy) (g : Nat) :
    (s.load_read_guard_slow g).1.ptr = some s.slots.length := rfl

theorem slow_counter (s : HazardStrategy) (g : Nat) :
    (s.load_read_guard_slow g).1.generation = s.generation := rfl

theorem slow_length (s : HazardStrategy) (g : Nat) :
    (s.load_read_guard_slow g).1.slots.length = s.slots.length + 1 := by
  simp [HazardStrategy.load_read_guard_slow]

theorem end_read_guard_gens {s : HazardStrategy} {i : Nat} :
    s.end_read_guard i = s.setGeneration i 0 := rfl

/-- One transition of the hazard strategy's state machine, as induced by
the strategy's operations.  `end_read_guard` and `capture_readers` are
allowed at arbitrary arguments, which over-approximates the protocol. -/
inductive HazardStep : HazardStrategy → HazardStrategy → Prop
  /-- the writer validates a swap -/
  | validate (s s' : HazardStrategy) (tok : Nat)
      (h : s.validate_swap = .ok (s', tok)) : HazardStep s s'
  /-- a reader begins a read guard -/
  | beginRead (s : HazardStrategy) (tag : HazardReaderTag) :
      HazardStep s (s.begin_read_guard tag).1
  /-- a reader ends a read guard on its slot -/
  | endRead (s : HazardStrategy) (i : Nat) : HazardStep s (s.end_read_guard i)
  /-- the writer captures the readers of a generation -/
  | captureStep (s : HazardStrategy) (g : Nat) :
      HazardStep s (s.capture_readers g).1

/-- the states reachable from a freshly constructed hazard strategy -/
def HazardReachable (s : HazardStrategy) : Prop :=
  Relation.ReflTransGen HazardStep HazardStrategy.init s

/-- The generation invariant: the counter is odd and in `u32` range, and
every slot's generation field is zero or odd and in range. -/
def GenInv (s : HazardStrategy) : Prop :=
  s.generation % 2 = 1 ∧ s.generation < U32 ∧
  ∀ g ∈ gens s, g = 0 ∨ (g % 2 = 1 ∧ g < U32)

theorem genInv_init : GenInv HazardStrategy.init := by
  refine ⟨rfl, by decide, ?_⟩
  intro g hg
  exact absurd hg (by simp [gens, HazardStrategy.init])

theorem genInv_step {s s' : HazardStrategy} (hs : HazardStep s s')
    (h : GenInv s) : GenInv s' := by
  obtain ⟨h1, h2, h3⟩ := h
  cases hs with
  | validate s2 tok hv =>
    simp only [HazardStrategy.validate_swap, Except.ok.injEq, Prod.mk.injEq] at hv
    obtain ⟨hv1, _⟩ := hv
    subst hv1
    refine ⟨?_, ?_, h3⟩
    · unfold U32 at h2 ⊢; show ((s.generation + 2) % 2 ^ 32) % 2 = 1; omega
    · unfold U32 at h2 ⊢; show (s.generation + 2) % 2 ^ 32 < 2 ^ 32; omega
  | beginRead tag =>
    rcases begin_read_guard_cases s tag with ⟨i, hlen, heq⟩ | heq
    · rw [heq]
      have hr : ∃ r, s.slots[i]? = some r := by
        rcases hx : s.slots[i]? with _ | r
        · exact absurd (List.getElem?_eq_none_iff.mp hx) (by omega)
        · exact ⟨r, rfl⟩
      obtain ⟨r, hr⟩ := hr
      refine ⟨by rw [setGeneration_counter]; exact h1,
              by rw [setGeneration_counter]; exact h2, ?_⟩
      intro g hg
      rw [setGeneration_gens_of_some hr] at hg
      rcases List.mem_or_eq_of_mem_set hg with hg | hg
      · exact h3 g hg
      · subst hg; exact Or.inr ⟨h1, h2⟩
    · rw [heq]
      refine ⟨by rw [slow_counter]; exact h1, by rw [slow_counter]; exact h2, ?_⟩
      intro g hg
      rw [slow_gens] at hg
      rcases List.mem_append.mp hg with hg | hg
      · exact h3 g hg
      · simp only [List.mem_singleton] at hg
        subst hg; exact Or.inr ⟨h1, h2⟩
  | endRead i =>
    rw [end_read_guard_gens]
    refine ⟨by rw [setGeneration_counter]; exact h1,
            by rw [setGeneration_counter]; exact h2, ?_⟩
    intro g hg
    cases hx : s.slots[i]? with
    | none => rw [setGeneration_of_none hx] at hg; exact h3 g hg
    | some r =>
      rw [setGeneration_gens_of_some hx] at hg
      rcases List.mem_or_eq_of_mem_set hg with hg | hg
      · exact h3 g hg
      · subst hg; exact Or.inl rfl
  | captureStep g =>
    obtain ⟨hg, _, _, hc, _⟩ := capture_readers_preserves s g
    refine ⟨by rw [hc]; exact h1, by rw [hc]; exact h2, ?_⟩
    intro x hx
    rw [hg] at hx
    exact h3 x hx

theorem genInv_reachable {s : HazardStrategy} (h : HazardReachable s) :
    GenInv s := by
  induction h with
  | refl => exact genInv_init
  | tail _ hstep ih => exact genInv_step hstep ih

theorem gens_length (s : HazardStrategy) : (gens s).length = s.slots.length := by
  simp [gens]

theorem nexts_length (s : HazardStrategy) : (nexts s).length = s.slots.length := by
  simp [nexts]

/-- Locality of one step on the slot generations: every slot's generation
field is either untouched, cleared to `0` (a read ending), or set to the
counter value current at the step (a read beginning). -/
theorem hazardStep_gens {s s' : HazardStrategy} (hs : HazardStep s s') (i : Nat) :
    (gens s')[i]? = (gens s)[i]? ∨ (gens s')[i]? = some 0 ∨
    (gens s')[i]? = some s.generation := by
  cases hs with
  | validate s2 tok hv =>
    simp only [HazardStrategy.validate_swap, Except.ok.injEq, Prod.mk.injEq] at hv
    obtain ⟨hv1, _⟩ := hv
    subst hv1
    exact Or.inl rfl
  | beginRead tag =>
    rcases begin_read_guard_cases s tag with ⟨j, hlen, heq⟩ | heq
    · rw [heq]
      have hr : ∃ r, s.slots[j]? = some r := by
        rcases hx : s.slots[j]? with _ | r
        · exact absurd (List.getElem?_eq_none_iff.mp hx) (by omega)
        · exact ⟨r, rfl⟩
      obtain ⟨r, hr⟩ := hr
      rw [setGeneration_gens_of_some hr, List.getElem?_set]
      by_cases hij : j = i
      · rw [if_pos hij, if_pos (by rw [gens_length]; omega)]
        exact Or.inr (Or.inr rfl)
      · rw [if_neg hij]
        exact Or.inl rfl
    · rw [heq, slow_gens, List.getElem?_append]
      by_cases hi : i < (gens s).length
      · rw [if_pos hi]
        exact Or.inl rfl
      · rw [if_neg hi]
        by_cases he : i - (gens s).length = 0
        · rw [he]
          exact Or.inr (Or.inr rfl)
        · rcases Nat.exists_eq_succ_of_ne_zero he with ⟨k, hk⟩
          rw [hk]
          refine Or.inl ?_
          rw [List.getElem?_eq_none_iff.mpr (by simp), List.getElem?_eq_none_iff.mpr (by omega)]
  | endRead j =>
    rw [end_read_guard_gens]
    cases hx : s.slots[j]? with
    | none => rw [setGeneration_of_none hx]; exact Or.inl rfl
    | some r =>
      rw [setGeneration_gens_of_some hx, List.getElem?_set]
      by_cases hij : j = i
      · rw [if_pos hij]
        by_cases hlt : j < (gens s).length
        · rw [if_pos hlt]; exact Or.inr (Or.inl rfl)
        · rw [if_neg hlt]
          refine Or.inl ?_
          rw [List.getElem?_eq_none_iff.mpr (by omega)]
      · rw [if_neg hij]; exact Or.inl rfl
  | captureStep g =>
    obtain ⟨hg, _, _, _, _⟩ := capture_readers_preserves s g
    rw [hg]
    exact Or.inl rfl

/-- Locality of one step on the counter: only `validate_swap` moves it,
by a wrapping `+2`. -/
theorem hazardStep_counter {s s' : HazardStrategy} (hs : HazardStep s s') :
    s'.generation = s.generation ∨ s'.generation = (s.generation + 2) % U32 := by
  cases hs with
  | validate s2 tok hv =>
    simp only [HazardStrategy.validate_swap, Except.ok.injEq, Prod.mk.injEq] at hv
    obtain ⟨hv1, _⟩ := hv
    subst hv1
    exact Or.inr rfl
  | beginRead tag =>
    rcases begin_read_guard_cases s tag with ⟨j, _, heq⟩ | heq
    · rw [heq, setGeneration_counter]; exact Or.inl rfl
    · rw [heq, slow_counter]; exact Or.inl rfl
  | endRead j => rw [end_read_guard_gens, setGeneration_counter]; exact Or.inl rfl
  | captureStep g =>
    obtain ⟨_, _, _, hc, _⟩ := capture_readers_preserves s g
    rw [hc]
    exact Or.inl rfl

/-- The structural invariant of the append-only list: the head points at
the most recently pushed slot and every slot's `next` link points at the
slot pushed just before it. -/
def ListShape (s : HazardStrategy) : Prop :=
  s.ptr = (if s.slots.length = 0 then none else some (s.slots.length - 1)) ∧
  ∀ i, i < s.slots.length →
    (nexts s)[i]? = some (if i = 0 then none else some (i - 1))

theorem listShape_init : ListShape HazardStrategy.init := by
  refine ⟨rfl, ?_⟩
  intro i h
  exact absurd h (by simp [HazardStrategy.init])

theorem listShape_step {s s' : HazardStrategy} (hs : HazardStep s s')
    (h : ListShape s) : ListShape s' := by
  obtain ⟨hp, hn⟩ := h
  cases hs with
  | validate s2 tok hv =>
    simp only [HazardStrategy.validate_swap, Except.ok.injEq, Prod.mk.injEq] at hv
    obtain ⟨hv1, _⟩ := hv
    subst hv1
    exact ⟨hp, hn⟩
  | beginRead tag =>
    rcases begin_read_guard_cases s tag with ⟨j, _, heq⟩ | heq
    · rw [heq]
      refine ⟨?_, ?_⟩
      · rw [setGeneration_ptr, setGeneration_length]; exact hp
      · intro i hi
        rw [setGeneration_length] at hi
        rw [setGeneration_nexts]
        exact hn i hi
    · rw [heq]
      refine ⟨?_, ?_⟩
      · rw [slow_ptr, slow_length]
        simp
      · intro i hi
        rw [slow_length] at hi
        rw [slow_nexts, List.getElem?_append]
        by_cases hil : i < s.slots.length
        · rw [if_pos (by rw [nexts_length]; exact hil)]
          exact hn i hil
        · have hieq : i = s.slots.length := by omega
          rw [if_neg (by rw [nexts_length]; omega)]
          have : i - (nexts s).length = 0 := by rw [nexts_length]; omega
          rw [this]
          subst hieq
          rw [hp]
          by_cases h0 : s.slots.length = 0
          · simp [h0]
          · simp [h0]
  | endRead j =>
    rw [end_read_guard_gens]
    refine ⟨?_, ?_⟩
    · rw [setGeneration_ptr, setGeneration_length]; exact hp
    · intro i hi
      rw [setGeneration_length] at hi
      rw [setGeneration_nexts]
      exact hn i hi
  | captureStep g =>
    obtain ⟨_, hnx, hpt, _, hl⟩ := capture_readers_preserves s g
    refine ⟨?_, ?_⟩
    · rw [hpt, hl]; exact hp
    · intro i hi
      rw [hl] at hi
      rw [hnx]
      exact hn i hi

theorem listShape_reachable {s : HazardStrategy} (h : HazardReachable s) :
    ListShape s := by
  induction h with
  | refl => exact listShape_init
  | tail _ hstep ih => exact listShape_step hstep ih

theorem dropFreesLoop_desc {s : HazardStrategy}
    (hn : ∀ i, i < s.slots.length →
        (nexts s)[i]? = some (if i = 0 then none else some (i - 1))) :
    ∀ (k fuel : Nat), k < s.slots.length → k + 1 ≤ fuel →
    dropFreesLoop s fuel (some k) = (List.range (k + 1)).reverse := by
  intro k
  induction k with
  | zero =>
    intro fuel h hf
    obtain ⟨f, rfl⟩ := Nat.exists_eq_succ_of_ne_zero (by omega : fuel ≠ 0)
    have hx := hn 0 h
    rw [if_pos rfl, nexts, List.getElem?_map] at hx
    rcases Option.map_eq_some'.mp hx with ⟨r, hr, hrn⟩
    simp only [dropFreesLoop, hr, hrn]
    cases f <;> rfl
  | succ k ih =>
    intro fuel h hf
    obtain ⟨f, rfl⟩ := Nat.exists_eq_succ_of_ne_zero (by omega : fuel ≠ 0)
    have hx := hn (k + 1) h
    rw [if_neg (by omega), nexts, List.getElem?_map] at hx
    rcases Option.map_eq_some'.mp hx with ⟨r, hr, hrn⟩
    simp only [dropFreesLoop, hr, hrn]
    have hk1 : k + 1 - 1 = k := by omega
    rw [hk1, ih f (by omega) (by omega)]
    rw [List.range_succ (n := k + 1)]
    simp

theorem dropFrees_eq {s : HazardStrategy} (h : ListShape s) :
    s.dropFrees = (List.range s.slots.length).reverse := by
  obtain ⟨hp, hn⟩ := h
  unfold HazardStrategy.dropFrees
  by_cases h0 : s.slots.length = 0
  · rw [hp, if_pos h0, h0]
    rfl
  · rw [hp, if_neg h0]
    rw [dropFreesLoop_desc hn (s.slots.length - 1) (s.slots.length + 1)
      (by omega) (by omega)]
    have : s.slots.length - 1 + 1 = s.slots.length := by omega
    rw [this]

theorem hreLoop_false {s : HazardStrategy} {g : Nat} :
    ∀ {fuel : Nat} {p q : Option Nat},
    hreLoop s g fuel p = some (false, q) →
    ∃ i r, q = some i ∧ s.slots[i]? = some r ∧ r.generation = g := by
  intro fuel
  induction fuel with
  | zero => intro p q h; exact absurd h (by simp [hreLoop])
  | succ n ih =>
    intro p q h
    cases p with
    | none => simp [hreLoop] at h
    | some i =>
      cases hs : s.slots[i]? with
      | none => simp [hreLoop, hs] at h
      | some r =>
        simp only [hreLoop, hs] at h
        by_cases hg : r.generation = g
        · rw [if_pos hg] at h
          simp only [Option.some.injEq, Prod.mk.injEq] at h
          exact ⟨i, r, h.2.symm, hs, hg⟩
        · rw [if_neg hg] at h
          exact ih h

theorem applyAll_length {O B : Type} (applyOp : O → B → O × B) :
    ∀ (l : List O) (b : B), (applyAll applyOp l b).1.length = l.length := by
  intro l
  induction l with
  | nil => intro b; rfl
  | cons op ops ih =>
    intro b
    simp only [applyAll, List.length_cons]
    rw [ih]

theorem opLog_apply_applied {O B : Type} {applyOp : O → B → O × B}
    {applyLast : O → B → B} {log : OpLog O} {buf : B} {rr : OpLog O × B}
    (h : OpLog.apply applyOp applyLast log buf = some rr) :
    rr.1.applied = rr.1.ops.length ∧
    rr.1.ops.length = log.ops.length - log.applied := by
  unfold OpLog.apply at h
  by_cases hle : log.applied ≤ log.ops.length
  · rw [if_pos hle] at h
    obtain ⟨rfl⟩ := Option.some.inj h
    constructor
    · show (log.ops.drop log.applied).length = _
      rw [applyAll_length]
    · show (applyAll _ _ _).1.length = _
      rw [applyAll_length, List.length_drop]
  · rw [if_neg hle] at h
    exact absurd h (by simp)

theorem finish_swap_clears {T : Type} {d d₂ : DelayedWriter T}
    (h : d.finish_swap = some d₂) : d₂.swap = none ∧ d₂.writer = d.writer := by
  unfold DelayedWriter.finish_swap at h
  cases hs : d.swap with
  | none =>
    rw [hs] at h
    obtain rfl := Option.some.inj h
    exact ⟨hs, rfl⟩
  | some c =>
    simp only [hs] at h
    cases hh : d.writer.strategy.have_readers_exited c with
    | none => simp [hh] at h
    | some bc =>
      rcases bc with ⟨b, c'⟩
      cases b with
      | true =>
        simp only [hh] at h
        obtain rfl := Option.some.inj h
        exact ⟨rfl, rfl⟩
      | false => simp [hh] at h

theorem hazardShared_try_start_which {T : Type} (s : HazardShared T) :
    (s.try_start_buffer_swap).1.which = !s.which := rfl

theorem delayed_try_start_of_none {T : Type} {d : DelayedWriter T}
    (h : d.swap = none) :
    (d.try_start_buffer_swap).swap.isSome = true ∧
    (d.try_start_buffer_swap).writer.which = !d.writer.which := by
  unfold DelayedWriter.try_start_buffer_swap
  rw [h]
  exact ⟨rfl, rfl⟩

/-- reader 1 begins a read on a fresh hazard strategy (allocates slot 0) -/
def c1afterR1 : HazardStrategy × HazardReaderTag :=
  HazardStrategy.init.begin_read_guard { node := none }

/-- reader 2 begins a read (slot 0 is busy, so slot 1 is allocated) -/
def c1afterR2 : HazardStrategy × HazardReaderTag :=
  c1afterR1.1.begin_read_guard { node := none }

/-- reader 2 drops its guard (its tag caches slot 1) -/
def c1afterEnd : HazardStrategy := c1afterR2.1.end_read_guard 1

/-- the writer validates a swap: the token is the prior generation 1 -/
def c1afterV : HazardStrategy × Nat :=
  match c1afterEnd.validate_swap with
  | .ok r => r
  | .error e => e.elim

/-- the writer captures the readers of generation 1 -/
def c1afterCap : HazardStrategy × Capture :=
  c1afterV.1.capture_readers c1afterV.2

/-- C1: the contract fails on the code.  With two allocated slots where
the head slot (slot 1) is free and slot 0 still holds the captured
generation 1, `capture_readers` stores the full-list head in
`Capture.start` but never writes the head's stale `next_captured` link,
so the captured chain reachable from the capture misses slot 0 entirely
and `have_readers_exited` answers `true` while reader 1's guard — active
since before the swap began — still holds the captured generation. -/
theorem capture_readers_drops_active_reader :
    c1afterR2.2 = { node := some 1 } ∧
    c1afterCap.2 = { generation := 1, start := some 1 } ∧
    (gens c1afterCap.1)[0]? = some 1 ∧
    c1afterCap.1.have_readers_exited c1afterCap.2 =
      some (true, c1afterCap.2) := by decide

/-- the initial shared state of the single-threaded sanity scenario -/
def c2s0 : LocalShared Int := { active_readers := 0, which := false, buffers := (0, 0) }

/-- after writing `10` to the writer side -/
def c2s1 : LocalShared Int := c2s0.write 10

/-- after the first completed swap -/
def c2s2 : LocalShared Int := { active_readers := 0, which := true, buffers := (10, 0) }

/-- after writing `20` to the writer side -/
def c2s3 : LocalShared Int := c2s2.write 20

/-- after the second completed swap -/
def c2s4 : LocalShared Int := { active_readers := 0, which := false, buffers := (10, 20) }

deriving instance DecidableEq for Except

/-- C2: the single-threaded sanity scenario of `test_local`.  Starting
from two `0` buffers, after writing `10` through `split_mut` the reader
observes `0`; after a completed swap it observes `10`; after writing `20`
it still observes `10`; after a second completed swap it observes `20`. -/
theorem local_single_threaded_sanity :
    c2s1.get_drop = some (c2s1, 0) ∧
    c2s1.try_swap_buffers = .ok c2s2 ∧
    c2s2.get_drop = some (c2s2, 10) ∧
    c2s3.get_drop = some (c2s3, 10) ∧
    c2s3.try_swap_buffers = .ok c2s4 ∧
    c2s4.get_drop = some (c2s4, 20) := by decide

/-- an integer `Operation`: `apply` adds the operand to the buffer and
leaves the operation reusable -/
def addIntOp (op : Int) (b : Int) : Int × Int := (op, b + op)

/-- the `apply_last` of the integer operation -/
def addIntLast (op : Int) (b : Int) : Int := b + op

/-- C3: `OpLog::apply` performs exactly the apply-and-advance protocol:
`apply_last` each operation with index below `applied` in order (removing
it), set `applied` to the post-drain length, then `apply` each remaining
operation in order; afterwards the log holds exactly the previously
unapplied operations (each updated by its own `apply`) and `applied`
equals the log's length. -/
theorem op_log_apply_protocol (O B : Type) (applyOp : O → B → O × B)
    (applyLast : O → B → B) (log : OpLog O) (buf : B)
    (h : log.applied ≤ log.ops.length) :
    OpLog.apply applyOp applyLast log buf =
      some ({ ops := (applyAll applyOp log.unapplied
                  (applyLastAll applyLast (log.ops.take log.applied) buf)).1,
              applied := log.ops.length - log.applied },
            (applyAll applyOp log.unapplied
                (applyLastAll applyLast (log.ops.take log.applied) buf)).2) ∧
    ∀ rr, OpLog.apply applyOp applyLast log buf = some rr →
      rr.1.applied = rr.1.ops.length := by
  constructor
  · unfold OpLog.apply
    rw [if_pos h]
    simp only [OpLog.unapplied, List.length_drop]
  · intro rr hrr
    exact (opLog_apply_applied hrr).1

/-- C3 witness: a concrete run with ops `[1, 2, 3]`, two of them already
applied, over the buffer `0`. -/
theorem op_log_apply_protocol_witness :
    OpLog.apply addIntOp addIntLast ({ ops := [1, 2, 3], applied := 2 } : OpLog Int) 0 =
      some ({ ops := [3], applied := 1 }, 6) := by
  have h := (op_log_apply_protocol Int Int addIntOp addIntLast
    { ops := [1, 2, 3], applied := 2 } 0 (by decide)).1
  rw [h]
  decide

/-- a shared state with one reader holding a guard on slot 0 -/
def c4Shared : HazardShared Int :=
  { strategy := (HazardStrategy.init.begin_read_guard { node := none }).1,
    which := false, buffers := (0, 0) }

/-- a delayed writer that started a swap capturing that reader -/
def c4Delayed : DelayedWriter Int :=
  (DelayedWriter.new c4Shared).try_start_buffer_swap

/-- C4 counterexample: a delayed writer dropped with an outstanding swap
does *not* finish that swap — `delayed.rs` has no `Drop` impl, so the
drop glue runs no strategy operation, and right after the drop the
captured reader (slot 0, generation 1) has still not exited. -/
theorem delayed_drop_leaves_swap_unfinished :
    c4Delayed.swap = some { generation := 1, start := some 0 } ∧
    DelayedWriter.drop c4Delayed = c4Delayed.writer ∧
    (DelayedWriter.drop c4Delayed).strategy.have_readers_exited
        { generation := 1, start := some 0 } =
      some (false, { generation := 1, start := some 0 }) := by decide

/-- C4 (amended): dropping a delayed writer runs no strategy operation —
the outstanding swap is discarded, not finished, and the shared state
(in particular every reader slot) is left untouched, so the drop frees
nothing; reader slots are freed exactly once each, when the shared
state's `HazardStrategy` is dropped and walks the full list. -/
theorem delayed_drop_amended :
    (∀ (T : Type) (d : DelayedWriter T), DelayedWriter.drop d = d.writer) ∧
    (∀ s : HazardStrategy, HazardReachable s →
        s.dropFrees = (List.range s.slots.length).reverse ∧
        s.dropFrees.Nodup ∧
        ∀ i, i < s.slots.length → i ∈ s.dropFrees) := by
  refine ⟨fun T d => rfl, fun s h => ?_⟩
  have he := dropFrees_eq (listShape_reachable h)
  refine ⟨he, ?_, ?_⟩
  · rw [he]
    exact List.nodup_reverse.mpr (List.nodup_range _)
  · intro i hi
    rw [he, List.mem_reverse, List.mem_range]
    exact hi

/-- C4 witness: the amended statement at the concrete one-reader state. -/
theorem delayed_drop_amended_witness :
    DelayedWriter.drop c4Delayed = c4Delayed.writer ∧
    c4Shared.strategy.dropFrees = [0] := by
  constructor
  · exact delayed_drop_amended.1 Int c4Delayed
  · have h := (delayed_drop_amended.2 c4Shared.strategy
      (Relation.ReflTransGen.single
        (HazardStep.beginRead HazardStrategy.init { node := none }))).1
    rw [h]
    decide

/-- C5: the hazard strategy's `validate_swap` never errors (its error
type `Infallible` is uninhabited), while the local strategy's
`validate_swap` errors exactly when a read guard is active;
`try_swap_buffers` propagates that error unchanged (a single
`validate_swap` call, no retry), and succeeds once the guard is dropped. -/
theorem validate_swap_errors (T : Type) :
    (∀ s : HazardStrategy,
        s.validate_swap =
          .ok ({ s with generation := (s.generation + 2) % U32 }, s.generation)) ∧
    (Infallible → False) ∧
    (∀ s : LocalShared T, s.validate_swap = .error {} ↔ 0 < s.active_readers) ∧
    (∀ (s : LocalShared T) (e : LocalValidationError),
        s.try_swap_buffers = .error e ↔ s.validate_swap = .error e) ∧
    (∀ s : LocalShared T, s.active_readers = 0 →
        s.try_swap_buffers = .ok { s with which := !s.which }) ∧
    (∀ s s' : LocalShared T, s.active_readers = 0 → s.begin_read_guard = some s' →
        s'.try_swap_buffers = .error {} ∧
        s'.end_read_guard.try_swap_buffers = .ok { s with which := !s.which }) := by
  refine ⟨fun s => rfl, fun e => e.elim, ?_, ?_, ?_, ?_⟩
  · intro s
    unfold LocalShared.validate_swap
    by_cases h : s.active_readers = 0
    · rw [if_pos h]
      constructor
      · intro hc; cases hc
      · intro hc; omega
    · rw [if_neg h]
      constructor
      · intro _; omega
      · intro _; rfl
  · intro s e
    unfold LocalShared.try_swap_buffers LocalShared.validate_swap
    by_cases h : s.active_readers = 0
    · rw [if_pos h]
      constructor
      · intro hc; cases hc
      · intro hc; cases hc
    · rw [if_neg h]
      cases e
      exact ⟨fun _ => rfl, fun _ => rfl⟩
  · intro s h
    unfold LocalShared.try_swap_buffers LocalShared.validate_swap
    rw [if_pos h]
  · intro s s' h hb
    unfold LocalShared.begin_read_guard at hb
    rw [if_pos (by unfold USIZE; omega)] at hb
    obtain rfl := Option.some.inj hb
    constructor
    · unfold LocalShared.try_swap_buffers LocalShared.validate_swap
      rw [if_neg (by simp)]
    · unfold LocalShared.end_read_guard LocalShared.try_swap_buffers
        LocalShared.validate_swap
      simp only []
      rw [if_pos (by omega)]
      cases s
      simp_all

/-- C5 witness: the scenario at a concrete state — a guard makes the
swap fail, dropping it makes the swap succeed. -/
theorem validate_swap_errors_witness :
    (({ active_readers := 1, which := false, buffers := ((0 : Int), 0) } :
        LocalShared Int).try_swap_buffers = .error {}) ∧
    (({ active_readers := 1, which := false, buffers := ((0 : Int), 0) } :
        LocalShared Int).end_read_guard.try_swap_buffers =
      .ok { active_readers := 0, which := true, buffers := ((0 : Int), 0) }) := by
  have h := (validate_swap_errors Int).2.2.2.2.2
    { active_readers := 0, which := false, buffers := ((0 : Int), 0) }
    { active_readers := 1, which := false, buffers := ((0 : Int), 0) }
    rfl (by decide)
  exact h

/-- C6: the generation counter starts at `1`; every `validate_swap`
adds `2` modulo `2 ^ 32` and returns the prior value; along every
reachable run the counter and every non-zero slot generation are odd
modulo `2 ^ 32`; and the only values a step ever writes into a slot's
generation field are `0` (a read ending) and the counter value current
when that reader began its read. -/
theorem hazard_generation_parity :
    HazardStrategy.init.generation = 1 ∧
    (∀ s : HazardStrategy,
        s.validate_swap =
          .ok ({ s with generation := (s.generation + 2) % U32 }, s.generation)) ∧
    (∀ s : HazardStrategy, HazardReachable s →
        s.generation % 2 = 1 ∧ s.generation < U32 ∧
        ∀ g ∈ gens s, g = 0 ∨ (g % 2 = 1 ∧ g < U32)) ∧
    (∀ s s' : HazardStrategy, HazardStep s s' → ∀ i : Nat,
        (gens s')[i]? = (gens s)[i]? ∨ (gens s')[i]? = some 0 ∨
        (gens s')[i]? = some s.generation) := by
  exact ⟨rfl, fun s => rfl, fun s h => genInv_reachable h,
    fun s s' hs i => hazardStep_gens hs i⟩

/-- C6 witness: the invariant at the initial state and the step-local
property at the first read-begin step. -/
theorem hazard_generation_parity_witness :
    HazardStrategy.init.generation % 2 = 1 ∧
    ((gens ((HazardStrategy.init.begin_read_guard { node := none }).1))[0]? =
        (gens HazardStrategy.init)[0]? ∨
      (gens ((HazardStrategy.init.begin_read_guard { node := none }).1))[0]? =
        some 0 ∨
      (gens ((HazardStrategy.init.begin_read_guard { node := none }).1))[0]? =
        some HazardStrategy.init.generation) := by
  constructor
  · exact (hazard_generation_parity.2.2.1 HazardStrategy.init
      Relation.ReflTransGen.refl).1
  · exact hazard_generation_parity.2.2.2 HazardStrategy.init
      ((HazardStrategy.init.begin_read_guard { node := none }).1)
      (HazardStep.beginRead HazardStrategy.init { node := none }) 0

/-- C7: the spin counter does *not* saturate.  `SpinWait::wait` updates
the counter with `count.wrapping_add(1).max(10)` — `max`, not a
saturating `min` — so after the first call it jumps to `10` and then
grows by `1` on every call (`9 + k` after `k` calls), without any fixed
bound below the `u32` wrap; on the 24th call the count (the shift amount
of the spin bound `1 << count`) reaches `32`, overflowing the 32-bit
shift. -/
theorem spin_wait_counter_growth :
    (∀ k : Nat, 1 ≤ k → k ≤ U32 - 11 → SpinWait.step^[k] 0 = 9 + k) ∧
    SpinWait.step^[23] 0 = 32 ∧
    (∀ c : Nat, (SpinWait.wait c).2.1 = c) := by
  refine ⟨?_, by decide, fun c => rfl⟩
  intro k
  induction k with
  | zero => intro h1 _; exact absurd h1 (by omega)
  | succ n ih =>
    intro h1 h2
    cases n with
    | zero => decide
    | succ m =>
      have h2' : m + 1 ≤ U32 - 11 := by unfold U32 at h2 ⊢; omega
      have hv := ih (by omega) h2'
      rw [Function.iterate_succ_apply', hv]
      unfold SpinWait.step
      have hlt : 9 + (m + 1) + 1 < U32 := by unfold U32 at h2; omega
      rw [Nat.mod_eq_of_lt hlt]
      show max (9 + (m + 1) + 1) 10 = 9 + (m + 1 + 1)
      rw [max_eq_left (by omega)]
      omega

/-- C7 witness: the growth law applied at the second call. -/
theorem spin_wait_counter_growth_witness :
    SpinWait.step^[2] 0 = 11 := by
  have h := spin_wait_counter_growth.1 2 (by decide)
    (by unfold U32; omega)
  rw [h]

/-- the op-writer of the publish counterexample: fresh hazard shared
state, no outstanding swap, empty log -/
def c8Writer : OpWriter Int Int :=
  { writer := DelayedWriter.new
      { strategy := HazardStrategy.init, which := false, buffers := (0, 0) },
    op_log := OpLog.new }

/-- C8 counterexample: `publish` with no unapplied operation is a no-op —
it neither runs the apply-and-advance protocol nor starts a buffer swap
(the state is returned unchanged: no capture stored, flag and generation
counter untouched), while the claim says every `publish` call does both. -/
theorem publish_empty_is_noop :
    OpWriter.publish addIntOp addIntLast c8Writer = some c8Writer ∧
    c8Writer.writer.swap = none ∧
    c8Writer.writer.writer.which = false ∧
    c8Writer.writer.writer.strategy.generation = 1 := by decide

/-- C8 (amended): `apply` only pushes the operation onto the log and
does no buffer work; `swap_buffers` always runs the apply-and-advance
protocol on the current writer-side buffer and then starts a swap
(leaving it outstanding, with the flag flipped); `publish` does the same
when at least one operation is unapplied and otherwise does nothing; and
`unapplied` is exactly the suffix of the log from index `applied`. -/
theorem op_writer_protocol (T O : Type) (applyOp : O → T → O × T)
    (applyLast : O → T → T) :
    (∀ (w : OpWriter T O) (op : O),
        (w.apply op).writer = w.writer ∧
        (w.apply op).op_log.ops = w.op_log.ops ++ [op] ∧
        (w.apply op).op_log.applied = w.op_log.applied) ∧
    (∀ w : OpWriter T O, w.unapplied = [] →
        OpWriter.publish applyOp applyLast w = some w) ∧
    (∀ w : OpWriter T O, w.unapplied ≠ [] →
        OpWriter.publish applyOp applyLast w =
          OpWriter.swap_buffers applyOp applyLast w) ∧
    (∀ (w w' : OpWriter T O),
        OpWriter.swap_buffers applyOp applyLast w = some w' →
        w'.writer.swap.isSome = true ∧
        w'.op_log.applied = w'.op_log.ops.length ∧
        ∃ d, w.writer.finish_swap = some d ∧
          w'.writer.writer.which = !d.writer.which) ∧
    (∀ (w : OpWriter T O) (i : Nat),
        w.unapplied[i]? = w.op_log.ops[w.op_log.applied + i]?) := by
  refine ⟨fun w op => ⟨rfl, rfl, rfl⟩, ?_, ?_, ?_, ?_⟩
  · intro w h
    unfold OpWriter.publish
    rw [if_pos (by simp [h])]
  · intro w h
    unfold OpWriter.publish
    rw [if_neg (by simp [h])]
  · intro w w' h
    unfold OpWriter.swap_buffers at h
    cases hf : w.writer.finish_swap with
    | none => simp [hf] at h
    | some d =>
      simp only [hf, Option.some_bind] at h
      cases ha : OpLog.apply applyOp applyLast w.op_log
          (bufGet d.writer.buffers d.writer.which) with
      | none => simp [ha] at h
      | some rr =>
        simp only [ha, Option.some_bind, Option.some.injEq] at h
        subst h
        have hd := finish_swap_clears hf
        refine ⟨?_, ?_, d, rfl, ?_⟩
        · exact (delayed_try_start_of_none (by exact hd.1)).1
        · exact (opLog_apply_applied ha).1
        · exact (delayed_try_start_of_none (by exact hd.1)).2
  · intro w i
    simp [OpWriter.unapplied, OpLog.unapplied, List.getElem?_drop]

/-- C8 witness: the amended statement at concrete inputs — an empty
publish is the identity, and `apply` pushes without touching the writer. -/
theorem op_writer_protocol_witness :
    OpWriter.publish addIntOp addIntLast c8Writer = some c8Writer ∧
    (c8Writer.apply 5).op_log.ops = c8Writer.op_log.ops ++ [5] ∧
    (c8Writer.apply 5).writer = c8Writer.writer := by
  refine ⟨?_, ?_, ?_⟩
  · exact (op_writer_protocol Int Int addIntOp addIntLast).2.1 c8Writer (by decide)
  · exact ((op_writer_protocol Int Int addIntOp addIntLast).1 c8Writer 5).2.1
  · exact ((op_writer_protocol Int Int addIntOp addIntLast).1 c8Writer 5).1

theorem have_readers_exited_at {s : HazardStrategy} {g i : Nat} {r : ActiveReader}
    (hs : s.slots[i]? = some r) (hg : r.generation = g) :
    s.have_readers_exited { generation := g, start := some i } =
      some (false, { generation := g, start := some i }) := by
  have hstep : hreLoop s g (s.slots.length + 1) (some i) = some (false, some i) := by
    simp [hreLoop, hs, hg]
  simp [HazardStrategy.have_readers_exited, hstep]

/-- C9: `have_readers_exited` is idempotent: with the slot store
unchanged (no intervening reader activity), probing again with the
capture returned by a probe yields the same boolean and the same
capture, so all further probes agree as well. -/
theorem have_readers_exited_idempotent {s : HazardStrategy} {c : Capture}
    {b : Bool} {c' : Capture}
    (h : s.have_readers_exited c = some (b, c')) :
    s.have_readers_exited c' = some (b, c') := by
  cases hl : hreLoop s c.generation (s.slots.length + 1) c.start with
  | none =>
    unfold HazardStrategy.have_readers_exited at h
    rw [hl] at h
    exact absurd h (by simp)
  | some bp =>
    unfold HazardStrategy.have_readers_exited at h
    rw [hl] at h
    rcases bp with ⟨b', q⟩
    cases b' with
    | true =>
      simp only [Option.some.injEq, Prod.mk.injEq] at h
      obtain ⟨hb, hc⟩ := h
      subst hb
      subst hc
      show s.have_readers_exited c = some (true, c)
      unfold HazardStrategy.have_readers_exited
      rw [hl]
    | false =>
      simp only [Option.some.injEq, Prod.mk.injEq] at h
      obtain ⟨hb, hc⟩ := h
      subst hb
      subst hc
      obtain ⟨i, r, hq, hs, hg⟩ := hreLoop_false hl
      subst hq
      exact have_readers_exited_at hs hg

/-- C9 witness: a probe at the empty capture answers `true` and is
stable under re-probing. -/
theorem have_readers_exited_idempotent_witness :
    HazardStrategy.init.have_readers_exited { generation := 0, start := none } =
      some (true, { generation := 0, start := none }) :=
  have_readers_exited_idempotent (c := { generation := 0, start := none })
    (by decide)

/-- a delayed writer holds no unfinished swap when either no swap is
stored or the stored capture's readers have all exited -/
def NoUnfinishedSwap {T : Type} (d : DelayedWriter T) : Prop :=
  d.swap = none ∨ ∃ c c', d.swap = some c ∧
    d.writer.strategy.have_readers_exited c = some (true, c')

/-- C10: a delayed writer never holds more than one outstanding swap:
`try_start_buffer_swap` on a writer with an outstanding swap returns
`Ok(())` at once, leaving the whole state (generation counter, flag,
stored capture) unchanged — so no `validate_swap` and no flip — and
`try_writer_mut` yields the mutable writer exactly when no unfinished
swap remains. -/
theorem delayed_writer_single_swap (T : Type) :
    (∀ d : DelayedWriter T, d.swap.isSome = true → d.try_start_buffer_swap = d) ∧
    (∀ (d : DelayedWriter T) (m : Option (HazardShared T)) (d₂ : DelayedWriter T),
        d.try_writer_mut = some (m, d₂) →
        (m.isSome = true ↔ NoUnfinishedSwap d)) := by
  constructor
  · intro d h
    unfold DelayedWriter.try_start_buffer_swap
    rw [if_pos h]
  · intro d m d₂ h
    unfold DelayedWriter.try_writer_mut DelayedWriter.is_swap_finished at h
    cases hs : d.swap with
    | none =>
      simp only [hs, Option.some.injEq, Prod.mk.injEq] at h
      obtain ⟨hm, _⟩ := h
      subst hm
      exact ⟨fun _ => Or.inl hs, fun _ => rfl⟩
    | some cc =>
      simp only [hs] at h
      cases hh : d.writer.strategy.have_readers_exited cc with
      | none => simp [hh] at h
      | some bc =>
        rcases bc with ⟨bb, c'⟩
        cases bb with
        | true =>
          simp only [hh, Option.some.injEq, Prod.mk.injEq] at h
          obtain ⟨hm, _⟩ := h
          subst hm
          exact ⟨fun _ => Or.inr ⟨cc, c', hs, hh⟩, fun _ => rfl⟩
        | false =>
          simp only [hh, Option.some.injEq, Prod.mk.injEq] at h
          obtain ⟨hm, _⟩ := h
          subst hm
          constructor
          · intro hx; simp at hx
          · intro hx
            rcases hx with hx | ⟨c₀, c₀', hsw, hh'⟩
            · rw [hs] at hx; cases hx
            · rw [hs] at hsw
              obtain rfl := Option.some.inj hsw
              rw [hh] at hh'
              simp at hh'

/-- an idle delayed writer over a fresh shared state -/
def c10Idle : DelayedWriter Int :=
  DelayedWriter.new { strategy := HazardStrategy.init, which := false, buffers := (0, 0) }

/-- C10 witness: starting a swap twice is the identity on a writer with
an outstanding swap, and an idle writer grants mutable access. -/
theorem delayed_writer_single_swap_witness :
    c4Delayed.try_start_buffer_swap = c4Delayed ∧
    ((some c10Idle.writer : Option (HazardShared Int)).isSome = true ↔
      NoUnfinishedSwap c10Idle) := by
  constructor
  · exact (delayed_writer_single_swap Int).1 c4Delayed (by decide)
  · exact (delayed_writer_single_swap Int).2 c10Idle (some c10Idle.writer)
      c10Idle (by decide)
